import Mathlib

set_option linter.unusedVariables false

/-!
Shallow embedding of `fritzbox_exporter.py`: the action-discovery,
metric-naming, exportability-classification and cached-read logic of the
prometheus-fritzbox-exporter.  Python strings are modelled as Lean `String`,
Python dicts as ordered association lists, the `cachetools.TTLCache` as an
explicit state value with an explicit clock, and fallible Python code
(KeyError, device-call failure) as `Except`.
-/

namespace FritzboxExporter

/-! Section: Python string primitives

`str.startswith`, `str.endswith` and the `in` substring operator, modelled
on the character list of the string. -/

def pyStartswith (s p : String) : Bool := p.toList.isPrefixOf s.toList

def pyEndswith (s p : String) : Bool := p.toList.isSuffixOf s.toList

def pyContains (s sub : String) : Bool := decide (sub.toList <:+: s.toList)

/-- Python `str.replace(a, b)` for single characters. -/
def pyReplaceChar (s : String) (a b : Char) : String :=
  String.mk (s.toList.map (fun c => if c = a then b else c))

/-! Section: `inflection.underscore`

The `inflection` library's `underscore` (used by `metricify`, line 61) is

    word = re.sub(r"([A-Z]+)([A-Z][a-z])", r"\x7b1_\x7d2"-style, word)
    word = re.sub(r"([a-z\d])([A-Z])", ..., word)
    word = word.replace("-", "_")
    return word.lower()

The first substitution inserts an underscore before an uppercase letter that
is preceded by an uppercase letter and followed by a lowercase letter; the
second inserts an underscore between a lowercase letter or digit and an
uppercase letter.  Both are rendered as character scans (equivalent to the
leftmost, non-overlapping regex substitution since no new match can start
inside a consumed match). ASCII character classes, as in the regexes. -/

def underscoreAux1 (prev : Char) : List Char → List Char
  | [] => []
  | c :: rest =>
    let sep := prev.isUpper && c.isUpper &&
      (match rest with | d :: _ => d.isLower | [] => false)
    if sep then '_' :: c :: underscoreAux1 c rest else c :: underscoreAux1 c rest

def underscorePass1 : List Char → List Char
  | [] => []
  | c :: rest => c :: underscoreAux1 c rest

def underscorePass2 : List Char → List Char
  | [] => []
  | [c] => [c]
  | c :: d :: rest =>
    if (c.isLower || c.isDigit) && d.isUpper
    then c :: '_' :: underscorePass2 (d :: rest)
    else c :: underscorePass2 (d :: rest)

def underscore (w : String) : String :=
  String.mk (((underscorePass2 (underscorePass1 w.toList)).map
    (fun c => if c = '-' then '_' else c)).map Char.toLower)

/-! Section: `metricify` (lines 59-61) -/

def metricify (service action var : String) : String :=
  let v := pyReplaceChar var '.' '_'
  "fritzbox_" ++ underscore v

/-! Section: the exportability test (lines 112-114 of `collect_variables`) -/

def isExportable (name : String) : Bool :=
  (pyEndswith name "Rate" && !pyStartswith name "Max" && !pyStartswith name "Min")
  || pyEndswith name "Sent" || pyEndswith name "Received" || pyContains name "Total"
  || pyContains name "Attenuation" || pyContains name "Margin" || pyEndswith name "Errors"

/-! Section: Data model (lines 56, and the fritzconnection schema objects of §6)

Values returned by the device are numbers in every exported case; their
exact type never matters here, so they are modelled as `Int`. -/

abbrev Value := Int

structure StateVariable where
  name : String
  dataType : String
deriving DecidableEq

structure Argument where
  direction : String
  relatedStateVariable : String
deriving DecidableEq

structure ActionSchema where
  arguments : List (String × Argument)
deriving DecidableEq

structure Service where
  actions : List (String × ActionSchema)
  state_variables : List (String × StateVariable)
deriving DecidableEq

/-- Line 56: `Action = collections.namedtuple('Action', ['service_name', 'action_name',
'arguments'])` (line 56); `arguments` maps argument name to its resolved
state variable (line 76). -/
structure Action where
  service_name : String
  action_name : String
  arguments : List (String × StateVariable)
deriving DecidableEq

/-- Python exceptions that can escape the modelled code. -/
inductive PyError where
  | keyError (key : String)
  | deviceError (msg : String)
deriving DecidableEq

/-- The fritzconnection client: the discovered schema plus the raw
`client.call_action(service, action)` device call, which may fail and
returns the action's output mapping (an ordered dict). -/
structure Client where
  services : List (String × Service)
  call_action_device : String → String → Except PyError (List (String × Value))

/-- Python `d[k]` on a string-keyed dict, as an `Option`. -/
def pyDictGet {α : Type} (l : List (String × α)) (k : String) : Option α :=
  (l.find? (fun p => p.1 == k)).map (fun p => p.2)

/-! Section: The TTL cache (line 81: `cache = TTLCache(maxsize=200, ttl=10)`)

`cachetools.TTLCache`: each entry carries an expiry time `stored + ttl`; an
entry is expired once `expires < now`; lookup moves the touched link to the
most-recently-used end; insertion first purges expired entries, then evicts
least-recently-used entries while over capacity, then appends the fresh
entry.  Entries are kept in a list whose head is the least recently used. -/

structure CacheEntry where
  key : String × String
  value : List (String × Value)
  expires : Nat
deriving DecidableEq

structure TTLCacheState where
  maxsize : Nat
  ttl : Nat
  entries : List CacheEntry
deriving DecidableEq

/-- The value and expiry currently stored for a key (no reordering). -/
def cacheFind (c : TTLCacheState) (k : String × String) : Option CacheEntry :=
  c.entries.find? (fun e => decide (e.key = k))

/-- Model of `TTLCache.__getitem__`: locate the link, move it to the
most-recently-used end, and treat it as a miss when expired. -/
def cacheLookup (c : TTLCacheState) (k : String × String) (now : Nat) :
    Option (List (String × Value)) × TTLCacheState :=
  match c.entries.find? (fun e => decide (e.key = k)) with
  | none => (none, c)
  | some e =>
    let moved := c.entries.filter (fun e2 => !decide (e2.key = k)) ++ [e]
    if e.expires < now then (none, ⟨c.maxsize, c.ttl, moved⟩)
    else (some e.value, ⟨c.maxsize, c.ttl, moved⟩)

/-- Model of `TTLCache.expire`: drop every expired entry. -/
def cacheExpire (c : TTLCacheState) (now : Nat) : TTLCacheState :=
  ⟨c.maxsize, c.ttl, c.entries.filter (fun e => !decide (e.expires < now))⟩

/-- Model of `TTLCache.__setitem__`: expire stale entries, replace any entry with the
same key, evict from the least-recently-used end while over capacity, and
append the fresh entry with expiry `now + ttl`. -/
def cacheSet (c : TTLCacheState) (k : String × String)
    (v : List (String × Value)) (now : Nat) : TTLCacheState :=
  let c' := cacheExpire c now
  let kept := c'.entries.filter (fun e => !decide (e.key = k))
  let kept' := if c.maxsize < kept.length + 1
    then kept.drop (kept.length + 1 - c.maxsize) else kept
  ⟨c.maxsize, c.ttl, kept' ++ [⟨k, v, now + c.ttl⟩]⟩

/-- Line 81: `cache = TTLCache(maxsize=200, ttl=10)` — the initial, empty
cache. -/
def cache : TTLCacheState := ⟨200, 10, []⟩

/-- Lines 83-84: the cache key of a call is the
`(service_name, action_name)` pair of the action argument. -/
def hashkey (action : Action) : String × String :=
  (action.service_name, action.action_name)

/-! Section: The cached device call and the field read

`call_action` (lines 87-89) is wrapped by `cachetools.cachedmethod`: try the
cache; on a miss run the underlying call and, only on success, store its
result.  The explicit clock `now` stands for the cache's timer; the third
component counts underlying device calls issued (0 or 1). -/

def call_action (client : Client) (c : TTLCacheState) (action : Action)
    (now : Nat) :
    Except PyError (List (String × Value)) × TTLCacheState × Nat :=
  match cacheLookup c (hashkey action) now with
  | (some v, c') => (Except.ok v, c', 0)
  | (none, c') =>
    match client.call_action_device action.service_name action.action_name with
    | Except.error e => (Except.error e, c', 1)
    | Except.ok v => (Except.ok v, cacheSet c' (hashkey action) v now, 1)

/-- Model of `handle_read` (lines 92-94): `output = call_action(client, action);
return output[key]` — a missing key raises `KeyError`. -/
def handle_read (client : Client) (c : TTLCacheState) (action : Action)
    (key : String) (now : Nat) :
    Except PyError Value × TTLCacheState × Nat :=
  match call_action client c action now with
  | (Except.error e, c', n) => (Except.error e, c', n)
  | (Except.ok output, c', n) =>
    match pyDictGet output key with
    | some v => (Except.ok v, c', n)
    | none => (Except.error (PyError.keyError key), c', n)

/-! Section: `collect_actions` (lines 64-78) -/

/-- Line 76: each argument's `relatedStateVariable` is looked up in the
service's `state_variables` dict; a missing reference raises `KeyError`. -/
def resolve_arguments (service : Service) :
    List (String × Argument) → Except PyError (List (String × StateVariable))
  | [] => Except.ok []
  | (argument_name, argument) :: rest =>
    match pyDictGet service.state_variables argument.relatedStateVariable with
    | none => Except.error (PyError.keyError argument.relatedStateVariable)
    | some sv =>
      match resolve_arguments service rest with
      | Except.error e => Except.error e
      | Except.ok tail => Except.ok ((argument_name, sv) :: tail)

/-- The inner loop of `collect_actions` over one service's actions
(lines 67-77): keep only actions whose name starts with `Get` and whose
arguments all have direction `out`. -/
def collect_actions_service (service_name : String) (service : Service) :
    List (String × ActionSchema) → Except PyError (List Action)
  | [] => Except.ok []
  | (action_name, action) :: rest =>
    if !pyStartswith action_name "Get" then
      collect_actions_service service_name service rest
    else if !(action.arguments.all (fun p => p.2.direction == "out")) then
      collect_actions_service service_name service rest
    else
      match resolve_arguments service action.arguments with
      | Except.error e => Except.error e
      | Except.ok args =>
        match collect_actions_service service_name service rest with
        | Except.error e => Except.error e
        | Except.ok tail =>
          Except.ok (Action.mk service_name action_name args :: tail)

def collect_actions_services :
    List (String × Service) → Except PyError (List Action)
  | [] => Except.ok []
  | (service_name, service) :: rest =>
    match collect_actions_service service_name service service.actions with
    | Except.error e => Except.error e
    | Except.ok acts =>
      match collect_actions_services rest with
      | Except.error e => Except.error e
      | Except.ok tail => Except.ok (acts ++ tail)

/-- Model of `collect_actions(client)` (lines 64-78). -/
def collect_actions (client : Client) : Except PyError (List Action) :=
  collect_actions_services client.services

/-! Section: `collect_variables` (lines 97-129) -/

/-- The configuration surface used by the core (lines 38-53 set the
defaults; `FLAGS.verbose` gates the eager debug read of lines 124-128). -/
structure Flags where
  service_skiplist : List String
  action_skiplist : List String
  verbose : Bool

def defaultFlags : Flags :=
  ⟨["DeviceConfig1", "X_AVM-DE_OnTel1", "X_AVM-DE_Filelinks1", "WANIPConnection1"],
   ["GetDefaultWEPKeyIndex", "GetLinkLayerMaxBitRates"], false⟩

/-- One `set_function` registration (lines 119-123): the gauge name, the
label values, and the `(action, key)` pair captured by value through the
lambda's defaulted arguments `action=action, key=key` (line 122). -/
structure Registration where
  metric_name : String
  label_service : String
  label_action : String
  action : Action
  key : String
deriving DecidableEq

/-- The registered accessor: the lambda of line 122 reads this
registration's own action and key through `handle_read`. -/
def Registration.accessor (client : Client) (r : Registration)
    (c : TTLCacheState) (now : Nat) :
    Except PyError Value × TTLCacheState × Nat :=
  handle_read client c r.action r.key now

/-- The mutable state threaded through `collect_variables`: the Python
`variables` dict keys in insertion order (`vars`), the list of `set_function` registrations, the
cache, and the number of underlying device calls issued so far. -/
structure CVState where
  vars : List String
  regs : List Registration
  c : TTLCacheState
  calls : Nat
deriving DecidableEq

/-- Lines 115-123: create or reuse the gauge under the derived metric name
(the Python `variables` dict) and append this key's `set_function`
registration; `c2` and `extra` thread the cache state and device-call count
of the optional verbose eager read of lines 124-128. -/
def registerKey (action : Action) (key : String) (sv : StateVariable)
    (st : CVState) (c2 : TTLCacheState) (extra : Nat) : CVState :=
  ⟨(if st.vars.contains (metricify action.service_name action.action_name
        sv.name)
     then st.vars
     else st.vars ++ [metricify action.service_name action.action_name
        sv.name]),
   st.regs ++ [⟨metricify action.service_name action.action_name sv.name,
                action.service_name, action.action_name, action, key⟩],
   c2, st.calls + extra⟩

/-- The inner loop of `collect_variables` over one action's output keys
(lines 106-128).  `action.arguments[key]` (line 107) raises `KeyError`
when the device reports an output name not declared in the schema; the
exportability test (lines 112-114) decides whether a gauge is created or
reused and a `set_function` registration appended; under `verbose` the
field is also read eagerly through `handle_read` (line 126) and that read's
failure would propagate. -/
def collect_variables_keys (flags : Flags) (client : Client) (action : Action)
    (now : Nat) : List (String × Value) → CVState → Except PyError CVState
  | [], st => Except.ok st
  | (key, _) :: rest, st =>
    match pyDictGet action.arguments key with
    | none => Except.error (PyError.keyError key)
    | some state_variable =>
      if isExportable state_variable.name then
        if flags.verbose then
          match handle_read client st.c action key now with
          | (Except.error e, _, _) => Except.error e
          | (Except.ok _, c2, n) =>
            collect_variables_keys flags client action now rest
              (registerKey action key state_variable st c2 n)
        else
          collect_variables_keys flags client action now rest
            (registerKey action key state_variable st st.c 0)
      else collect_variables_keys flags client action now rest st

/-- The outer loop of `collect_variables` (lines 99-105): skip actions by
service or action skiplist, otherwise perform the cached call and walk the
output keys.  A device-call failure propagates. -/
def collect_variables_actions (flags : Flags) (client : Client) (now : Nat) :
    List Action → CVState → Except PyError CVState
  | [], st => Except.ok st
  | action :: rest, st =>
    if flags.service_skiplist.contains action.service_name then
      collect_variables_actions flags client now rest st
    else if flags.action_skiplist.contains action.action_name then
      collect_variables_actions flags client now rest st
    else
      match call_action client st.c action now with
      | (Except.error e, _, _) => Except.error e
      | (Except.ok output, c', n) =>
        match collect_variables_keys flags client action now output
            ⟨st.vars, st.regs, c', st.calls + n⟩ with
        | Except.error e => Except.error e
        | Except.ok st' => collect_variables_actions flags client now rest st'

/-- Model of `collect_variables(client, actions)` (lines 97-129). -/
def collect_variables (flags : Flags) (client : Client) (actions : List Action)
    (c : TTLCacheState) (now : Nat) : Except PyError CVState :=
  collect_variables_actions flags client now actions ⟨[], [], c, 0⟩

/-- What a `set_function` registration created while processing `action`
looks like (lines 106-123): its own action and key captured by value, the
label values taken from that same action, the key resolving in the action's
arguments to an exportable state variable, and the metric name derived from
that variable's name. -/
def RegFromAction (action : Action) (r : Registration) : Prop :=
  r.action = action
  ∧ r.label_service = action.service_name
  ∧ r.label_action = action.action_name
  ∧ ∃ sv, pyDictGet action.arguments r.key = some sv
      ∧ isExportable sv.name = true
      ∧ r.metric_name
          = metricify action.service_name action.action_name sv.name

/-- Section 4.4's exportability rule, stated over plain prefix/suffix/substring
propositions on the character lists, to be compared with the code's
`isExportable`. -/
def exportableRule (name : String) : Prop :=
  ("Rate".toList <:+ name.toList
      ∧ ¬ "Max".toList <+: name.toList ∧ ¬ "Min".toList <+: name.toList)
  ∨ "Sent".toList <:+ name.toList
  ∨ "Received".toList <:+ name.toList
  ∨ "Total".toList <:+: name.toList
  ∨ "Attenuation".toList <:+: name.toList
  ∨ "Margin".toList <:+: name.toList
  ∨ "Errors".toList <:+ name.toList

/-! Concrete demonstration schema used by the witnesses: one device with a
single service `X` holding one eligible read action `GetTotal` (one pure
output argument) and one non-`Get` action, returning
`{NewTotalBytesSent: 42}` when called. -/

def demoStateVariable : StateVariable := ⟨"TotalBytesSent", "ui4"⟩

def demoSchema : ActionSchema :=
  ⟨[("NewTotalBytesSent", ⟨"out", "TotalBytesSent"⟩)]⟩

def demoService : Service :=
  ⟨[("GetTotal", demoSchema), ("SetConfig", ⟨[]⟩)],
   [("TotalBytesSent", demoStateVariable)]⟩

def demoAction : Action := ⟨"X", "GetTotal", [("NewTotalBytesSent", demoStateVariable)]⟩

def demoClient : Client :=
  ⟨[("X", demoService)],
   fun s a => if s == "X" && a == "GetTotal"
     then Except.ok [("NewTotalBytesSent", 42)]
     else Except.error (PyError.deviceError "call failed")⟩

/-- A device that always fails, for the C6 witness. -/
def failingClient : Client :=
  ⟨[("X", demoService)], fun s a => Except.error (PyError.deviceError "down")⟩

/-- A device whose result mapping holds an output name (`Mystery`) that is
not declared among the demonstration action's arguments, for the C10
witness. -/
def badClient : Client :=
  ⟨[("X", demoService)], fun s a => Except.ok [("Mystery", 7)]⟩

/-- A full two-entry cache of unexpired entries, for the C7 witness. -/
def fullCache : TTLCacheState :=
  ⟨2, 10, [⟨("s1", "a1"), [], 100⟩, ⟨("s2", "a2"), [], 100⟩]⟩

/-! Section: Theorems -/

/-- C3: a variable name is classified exportable iff it ends with "Rate"
without starting with "Max"/"Min", or ends with "Sent", "Received" or
"Errors", or contains "Total", "Attenuation" or "Margin"; in particular
`TotalBytesSent` and `UpstreamCurrRate` are exportable while `MaxBitRate`
and `DeviceName` are not. -/
theorem C3_exportability_classifier :
    (∀ name : String, isExportable name = true ↔ exportableRule name)
    ∧ isExportable "TotalBytesSent" = true
    ∧ isExportable "MaxBitRate" = false
    ∧ isExportable "UpstreamCurrRate" = true
    ∧ isExportable "DeviceName" = false := by
  refine ⟨fun name => ?_, by decide, by decide, by decide, by decide⟩
  simp only [isExportable, exportableRule, pyEndswith, pyStartswith, pyContains,
    Bool.or_eq_true, Bool.and_eq_true, Bool.not_eq_true', Bool.eq_false_iff,
    ne_eq, List.isSuffixOf_iff_suffix, List.isPrefixOf_iff_prefix,
    decide_eq_true_eq]
  tauto

/-- C3 witness: the classifier evaluated at a concrete name through the
theorem. -/
theorem C3_witness : exportableRule "UpstreamCurrRate" :=
  (C3_exportability_classifier.1 "UpstreamCurrRate").mp (by decide)

/-! Helper lemmas: no '.' can survive `metricify`. -/

theorem toNat_ofNat_valid {n : Nat} (h : n.isValidChar) :
    (Char.ofNat n).toNat = n := by
  simp [Char.ofNat, h, Char.ofNatAux, Char.toNat, UInt32.toNat,
    BitVec.toNat_ofNatLt]

theorem toLower_eq_dot {c : Char} (h : c.toLower = '.') : c = '.' := by
  simp only [Char.toLower] at h
  split at h
  · exfalso
    rename_i hcond
    have hvalid : (c.toNat + 32).isValidChar := Or.inl (by omega)
    have h46 := congrArg Char.toNat h
    rw [toNat_ofNat_valid hvalid] at h46
    have hdot : ('.' : Char).toNat = 46 := by decide
    omega
  · exact h

theorem mem_underscoreAux1 {x prev : Char} {l : List Char}
    (h : x ∈ underscoreAux1 prev l) : x = '_' ∨ x ∈ l := by
  induction l generalizing prev with
  | nil => simp [underscoreAux1] at h
  | cons c rest ih =>
    simp only [underscoreAux1] at h
    split at h
    · simp only [List.mem_cons] at h
      rcases h with h | h | h
      · exact Or.inl h
      · exact Or.inr (List.mem_cons.mpr (Or.inl h))
      · rcases ih h with h' | h'
        · exact Or.inl h'
        · exact Or.inr (List.mem_cons.mpr (Or.inr h'))
    · simp only [List.mem_cons] at h
      rcases h with h | h
      · exact Or.inr (List.mem_cons.mpr (Or.inl h))
      · rcases ih h with h' | h'
        · exact Or.inl h'
        · exact Or.inr (List.mem_cons.mpr (Or.inr h'))

theorem mem_underscorePass1 {x : Char} {l : List Char}
    (h : x ∈ underscorePass1 l) : x = '_' ∨ x ∈ l := by
  cases l with
  | nil => simp [underscorePass1] at h
  | cons c rest =>
    simp only [underscorePass1, List.mem_cons] at h
    rcases h with h | h
    · exact Or.inr (List.mem_cons.mpr (Or.inl h))
    · rcases mem_underscoreAux1 h with h' | h'
      · exact Or.inl h'
      · exact Or.inr (List.mem_cons.mpr (Or.inr h'))

theorem mem_underscorePass2 {x : Char} {l : List Char}
    (h : x ∈ underscorePass2 l) : x = '_' ∨ x ∈ l := by
  induction l with
  | nil => simp [underscorePass2] at h
  | cons c rest ih =>
    cases rest with
    | nil =>
      rw [underscorePass2] at h
      exact Or.inr h
    | cons d rest' =>
      rw [underscorePass2] at h
      split at h
      · simp only [List.mem_cons] at h
        rcases h with h | h | h
        · exact Or.inr (List.mem_cons.mpr (Or.inl h))
        · exact Or.inl h
        · rcases ih h with h' | h'
          · exact Or.inl h'
          · exact Or.inr (List.mem_cons.mpr (Or.inr h'))
      · simp only [List.mem_cons] at h
        rcases h with h | h
        · exact Or.inr (List.mem_cons.mpr (Or.inl h))
        · rcases ih h with h' | h'
          · exact Or.inl h'
          · exact Or.inr (List.mem_cons.mpr (Or.inr h'))

theorem dot_not_mem_underscore {w : String} (hw : '.' ∉ w.toList) :
    '.' ∉ (underscore w).toList := by
  intro hmem
  simp only [underscore] at hmem
  have hmem' : '.' ∈ ((underscorePass2 (underscorePass1 w.toList)).map
      (fun c => if c = '-' then '_' else c)).map Char.toLower := hmem
  rcases List.mem_map.mp hmem' with ⟨c, hc, hlc⟩
  have hcdot : c = '.' := toLower_eq_dot hlc
  subst hcdot
  rcases List.mem_map.mp hc with ⟨c2, hc2, hdash⟩
  have hc2dot : c2 = '.' := by
    by_cases h2 : c2 = '-'
    · simp [h2] at hdash
    · simpa [h2] using hdash
  subst hc2dot
  rcases mem_underscorePass2 hc2 with h' | h'
  · exact absurd h' (by decide)
  · rcases mem_underscorePass1 h' with h'' | h''
    · exact absurd h'' (by decide)
    · exact hw h''

theorem dot_not_mem_pyReplaceChar (v : String) :
    '.' ∉ (pyReplaceChar v '.' '_').toList := by
  intro h
  have h' : '.' ∈ v.toList.map (fun c => if c = '.' then '_' else c) := h
  rcases List.mem_map.mp h' with ⟨c, _, heq⟩
  by_cases hc : c = '.'
  · simp [hc] at heq
  · simp [hc] at heq

/-- C4 counterexample: `metricify` (the metric-name derivation) is not
idempotent — re-applying it prefixes `fritzbox_` a second time. -/
theorem C4_counterexample :
    metricify "" "" (metricify "" "" "X") ≠ metricify "" "" "X"
    ∧ metricify "" "" "X" = "fritzbox_x"
    ∧ metricify "" "" (metricify "" "" "X") = "fritzbox_fritzbox_x" :=
  ⟨by decide, by decide, by decide⟩

/-- C4 (amended): the metric-name derivation is deterministic — it is a
pure function of the raw variable name alone (the service and action
parameters are ignored); every literal '.' in the input is replaced by '_'
and no '.' survives into the metric name; the result is the lower-snake-case
conversion of the dot-replaced input prefixed with the fixed namespace token
`fritzbox_`.  It is not idempotent (see the counterexample): applying it
twice prefixes the namespace token twice. -/
theorem C4_deriveName_structure :
    (∀ s a s' a' v, metricify s a v = metricify s' a' v)
    ∧ (∀ s a v, metricify s a v
        = "fritzbox_" ++ underscore (pyReplaceChar v '.' '_'))
    ∧ (∀ s a v, '.' ∉ (metricify s a v).toList) := by
  refine ⟨fun _ _ _ _ _ => rfl, fun _ _ _ => rfl, fun s a v => ?_⟩
  intro hmem
  have h1 : ('.' : Char) ∈ "fritzbox_".toList
      ∨ ('.' : Char) ∈ (underscore (pyReplaceChar v '.' '_')).toList := by
    have : (metricify s a v).toList
        = "fritzbox_".toList ++ (underscore (pyReplaceChar v '.' '_')).toList :=
      String.data_append ..
    rw [this] at hmem
    exact List.mem_append.mp hmem
  rcases h1 with h1 | h1
  · exact absurd h1 (by decide)
  · exact dot_not_mem_underscore (dot_not_mem_pyReplaceChar v) h1

/-- C4 witness: the amended theorem applied at a concrete raw name. -/
theorem C4_witness :
    metricify "svc" "act" "Svc.CurrRate" = metricify "" "" "Svc.CurrRate" :=
  C4_deriveName_structure.1 "svc" "act" "" "" "Svc.CurrRate"

/-! Helper lemmas characterising the actions produced by `collect_actions`. -/

theorem collect_actions_service_spec {service_name : String} {service : Service}
    {l : List (String × ActionSchema)} {acts : List Action}
    (h : collect_actions_service service_name service l = Except.ok acts)
    {a : Action} (ha : a ∈ acts) :
    a.service_name = service_name
    ∧ pyStartswith a.action_name "Get" = true
    ∧ ∃ schema, (a.action_name, schema) ∈ l
        ∧ ∀ p ∈ schema.arguments, p.2.direction = "out" := by
  induction l generalizing acts with
  | nil =>
    simp only [collect_actions_service, Except.ok.injEq] at h
    subst h
    simp at ha
  | cons hd rest ih =>
    obtain ⟨action_name, schema⟩ := hd
    simp only [collect_actions_service] at h
    split at h
    · obtain ⟨hsn, hget, schema', hmem, hout⟩ := ih h ha
      exact ⟨hsn, hget, schema', List.mem_cons.mpr (Or.inr hmem), hout⟩
    · rename_i hGet
      split at h
      · obtain ⟨hsn, hget, schema', hmem, hout⟩ := ih h ha
        exact ⟨hsn, hget, schema', List.mem_cons.mpr (Or.inr hmem), hout⟩
      · rename_i hOut
        split at h
        · exact absurd h (by simp)
        · rename_i args hargs
          split at h
          · exact absurd h (by simp)
          · rename_i tail htail
            simp only [Except.ok.injEq] at h
            subst h
            rcases List.mem_cons.mp ha with ha | ha
            · subst ha
              refine ⟨rfl, ?_, schema, List.mem_cons.mpr (Or.inl rfl), ?_⟩
              · simpa using hGet
              · intro p hp
                have hall : schema.arguments.all
                    (fun p => p.2.direction == "out") = true := by
                  simpa using hOut
                have := (List.all_eq_true.mp hall) p hp
                exact eq_of_beq (by simpa using this)
            · obtain ⟨hsn, hget, schema', hmem, hout⟩ := ih htail ha
              exact ⟨hsn, hget, schema', List.mem_cons.mpr (Or.inr hmem), hout⟩

theorem collect_actions_services_spec {ls : List (String × Service)}
    {acts : List Action}
    (h : collect_actions_services ls = Except.ok acts)
    {a : Action} (ha : a ∈ acts) :
    ∃ service, (a.service_name, service) ∈ ls
      ∧ ∃ schema, (a.action_name, schema) ∈ service.actions
        ∧ pyStartswith a.action_name "Get" = true
        ∧ ∀ p ∈ schema.arguments, p.2.direction = "out" := by
  induction ls generalizing acts with
  | nil =>
    simp only [collect_actions_services, Except.ok.injEq] at h
    subst h
    simp at ha
  | cons hd rest ih =>
    obtain ⟨service_name, service⟩ := hd
    simp only [collect_actions_services] at h
    split at h
    · exact absurd h (by simp)
    · rename_i acts1 hacts1
      split at h
      · exact absurd h (by simp)
      · rename_i tail htail
        simp only [Except.ok.injEq] at h
        subst h
        rcases List.mem_append.mp ha with ha | ha
        · obtain ⟨hsn, hget, schema, hmem, hout⟩ :=
            collect_actions_service_spec hacts1 ha
          exact ⟨service, by rw [hsn]; exact List.mem_cons.mpr (Or.inl rfl),
            schema, hmem, hget, hout⟩
        · obtain ⟨service', hmem', rest'⟩ := ih htail ha
          exact ⟨service', List.mem_cons.mpr (Or.inr hmem'), rest'⟩

/-- C1: every Operation placed in the Candidate Set by discovery
(`collect_actions`) has an action name starting with `Get`, and its schema
action has every argument of direction `out` (hence zero arguments of
direction `in`). -/
theorem C1_candidate_set_pure_reads
    (client : Client) (acts : List Action)
    (h : collect_actions client = Except.ok acts) (a : Action) (ha : a ∈ acts) :
    pyStartswith a.action_name "Get" = true
    ∧ ∃ service, (a.service_name, service) ∈ client.services
        ∧ ∃ schema, (a.action_name, schema) ∈ service.actions
          ∧ (∀ p ∈ schema.arguments, p.2.direction = "out")
          ∧ (∀ p ∈ schema.arguments, p.2.direction ≠ "in") := by
  obtain ⟨service, hsvc, schema, hmem, hget, hout⟩ :=
    collect_actions_services_spec h ha
  exact ⟨hget, service, hsvc, schema, hmem, hout,
    fun p hp => by rw [hout p hp]; decide⟩

/-- C1 witness: discovery on the demonstration device yields exactly the
eligible action, and the theorem applies to it. -/
theorem C1_witness :
    pyStartswith demoAction.action_name "Get" = true
    ∧ ∃ service, (demoAction.service_name, service) ∈ demoClient.services
        ∧ ∃ schema, (demoAction.action_name, schema) ∈ service.actions
          ∧ (∀ p ∈ schema.arguments, p.2.direction = "out")
          ∧ (∀ p ∈ schema.arguments, p.2.direction ≠ "in") :=
  C1_candidate_set_pure_reads demoClient [demoAction] (by rfl) demoAction
    (List.mem_cons.mpr (Or.inl rfl))

/-! Helper lemmas about the cache operations. -/

theorem cacheLookup_maxsize (c : TTLCacheState) (k : String × String)
    (now : Nat) : ((cacheLookup c k now).2).maxsize = c.maxsize := by
  unfold cacheLookup
  split
  · rfl
  · split <;> rfl

theorem cacheLookup_ttl (c : TTLCacheState) (k : String × String)
    (now : Nat) : ((cacheLookup c k now).2).ttl = c.ttl := by
  unfold cacheLookup
  split
  · rfl
  · split <;> rfl

/-- The entry stored for `k` after a `cacheSet` of `k` is the fresh one. -/
theorem cacheFind_cacheSet_self (c : TTLCacheState) (k : String × String)
    (v : List (String × Value)) (now : Nat) :
    cacheFind (cacheSet c k v now) k = some ⟨k, v, now + c.ttl⟩ := by
  unfold cacheFind cacheSet
  have hkept : ∀ l : List CacheEntry,
      (l.filter (fun e => !decide (e.key = k))).find? (fun e => decide (e.key = k))
        = none := by
    intro l
    rw [List.find?_eq_none]
    intro x hx
    have := List.of_mem_filter hx
    simpa using this
  have hdrop : ∀ (l : List CacheEntry) (n : Nat),
      l.find? (fun e => decide (e.key = k)) = none →
      (l.drop n).find? (fun e => decide (e.key = k)) = none := by
    intro l n hl
    rw [List.find?_eq_none] at hl ⊢
    intro x hx
    exact hl x (List.mem_of_mem_drop hx)
  simp only []
  split
  · rw [List.find?_append, hdrop _ _ (hkept _)]
    simp
  · rw [List.find?_append, hkept]
    simp

/-- Whatever `cacheLookup` does to the order of the entries, the entry
stored for the looked-up key itself is unchanged. -/
theorem cacheFind_cacheLookup_self (c : TTLCacheState) (k : String × String)
    (now : Nat) : cacheFind ((cacheLookup c k now).2) k = cacheFind c k := by
  unfold cacheFind cacheLookup
  cases hf : c.entries.find? (fun e => decide (e.key = k)) with
  | none => simp [hf]
  | some e =>
    have hkey : e.key = k := by simpa using List.find?_some hf
    have hmoved : (c.entries.filter (fun e2 => !decide (e2.key = k))
        ++ [e]).find? (fun e2 => decide (e2.key = k)) = some e := by
      rw [List.find?_append]
      have hnone : (c.entries.filter
          (fun e2 => !decide (e2.key = k))).find?
            (fun e2 => decide (e2.key = k)) = none := by
        rw [List.find?_eq_none]
        intro x hx
        simpa using List.of_mem_filter hx
      rw [hnone]
      simp [hkey]
    by_cases hexp : e.expires < now
    · simp [hexp, hmoved]
    · simp [hexp, hmoved]

/-- A miss stays a miss until something is stored: re-reading immediately
after a missed lookup misses again. -/
theorem cacheLookup_miss_again (c : TTLCacheState) (k : String × String)
    (now : Nat) (h : (cacheLookup c k now).1 = none) :
    (cacheLookup ((cacheLookup c k now).2) k now).1 = none := by
  unfold cacheLookup at h ⊢
  cases hf : c.entries.find? (fun e => decide (e.key = k)) with
  | none => simp [hf] at h ⊢
  | some e =>
    have hkey : e.key = k := by simpa using List.find?_some hf
    rw [hf] at h
    have hexp : e.expires < now := by
      by_contra hexp
      simp [hexp] at h
    have hmoved : (c.entries.filter (fun e2 => !decide (e2.key = k))
        ++ [e]).find? (fun e2 => decide (e2.key = k)) = some e := by
      rw [List.find?_append]
      have hnone : (c.entries.filter
          (fun e2 => !decide (e2.key = k))).find?
            (fun e2 => decide (e2.key = k)) = none := by
        rw [List.find?_eq_none]
        intro x hx
        simpa using List.of_mem_filter hx
      rw [hnone]
      simp [hkey]
    simp [hexp, hmoved]

/-- An expired entry is a miss, whatever else the cache holds. -/
theorem cacheLookup_expired (c : TTLCacheState) (k : String × String)
    (now : Nat) (e : CacheEntry) (hfind : cacheFind c k = some e)
    (hexp : e.expires < now) : (cacheLookup c k now).1 = none := by
  unfold cacheFind at hfind
  unfold cacheLookup
  simp [hfind, hexp]

/-- C2: two reads of two different output variables of the same Operation
within the TTL window issue exactly one underlying device call between them;
the result is cached keyed by the (service name, action name) pair, and both
reads draw their values from the same result mapping. -/
theorem C2_read_coalescing (client : Client) (c0 : TTLCacheState) (a : Action)
    (k1 k2 : String) (t0 t1 : Nat) (output : List (String × Value))
    (hmiss : (cacheLookup c0 (hashkey a) t0).1 = none)
    (hdev : client.call_action_device a.service_name a.action_name
      = Except.ok output)
    (hwin : t1 ≤ t0 + c0.ttl) :
    (handle_read client c0 a k1 t0).2.2 = 1
    ∧ (handle_read client (handle_read client c0 a k1 t0).2.1 a k2 t1).2.2 = 0
    ∧ cacheFind (handle_read client c0 a k1 t0).2.1
        (a.service_name, a.action_name)
        = some ⟨(a.service_name, a.action_name), output, t0 + c0.ttl⟩
    ∧ (handle_read client c0 a k1 t0).1
        = (match pyDictGet output k1 with
           | some v => Except.ok v
           | none => Except.error (PyError.keyError k1))
    ∧ (handle_read client (handle_read client c0 a k1 t0).2.1 a k2 t1).1
        = (match pyDictGet output k2 with
           | some v => Except.ok v
           | none => Except.error (PyError.keyError k2)) := by
  rcases hcl : cacheLookup c0 (hashkey a) t0 with ⟨o, cmid⟩
  rw [hcl] at hmiss
  simp only at hmiss
  subst hmiss
  have hr1 : handle_read client c0 a k1 t0
      = ((match pyDictGet output k1 with
          | some v => Except.ok v
          | none => Except.error (PyError.keyError k1)),
         cacheSet cmid (hashkey a) output t0, 1) := by
    unfold handle_read call_action
    rw [hcl, hdev]
    cases hpd : pyDictGet output k1 with
    | none => simp [hpd]
    | some v => simp [hpd]
  have httl : cmid.ttl = c0.ttl := by
    have := cacheLookup_ttl c0 (hashkey a) t0
    rw [hcl] at this
    exact this
  have hstore : cacheFind (cacheSet cmid (hashkey a) output t0) (hashkey a)
      = some ⟨hashkey a, output, t0 + c0.ttl⟩ := by
    rw [cacheFind_cacheSet_self, httl]
  have hlookup2 : (cacheLookup (cacheSet cmid (hashkey a) output t0)
      (hashkey a) t1).1 = some output := by
    unfold cacheLookup
    unfold cacheFind at hstore
    rw [hstore]
    have hnotexp : ¬ (t0 + c0.ttl < t1) := by omega
    simp [hnotexp]
  have hr2 : (handle_read client (cacheSet cmid (hashkey a) output t0) a k2 t1).2.2 = 0
      ∧ (handle_read client (cacheSet cmid (hashkey a) output t0) a k2 t1).1
        = (match pyDictGet output k2 with
           | some v => Except.ok v
           | none => Except.error (PyError.keyError k2)) := by
    rcases hcl2 : cacheLookup (cacheSet cmid (hashkey a) output t0)
      (hashkey a) t1 with ⟨o2, c2⟩
    rw [hcl2] at hlookup2
    simp only at hlookup2
    subst hlookup2
    unfold handle_read call_action
    rw [hcl2]
    cases hpd : pyDictGet output k2 with
    | none => simp [hpd]
    | some v => simp [hpd]
  rw [hr1]
  exact ⟨rfl, hr2.1, hstore, rfl, hr2.2⟩

/-- C2 witness: the coalescing theorem applied on the demonstration device,
starting from the empty startup cache. -/
theorem C2_witness :
    (handle_read demoClient cache demoAction "NewTotalBytesSent" 0).2.2 = 1
    ∧ (handle_read demoClient
        (handle_read demoClient cache demoAction "NewTotalBytesSent" 0).2.1
        demoAction "NewTotalBytesSent" 5).2.2 = 0 := by
  have h := C2_read_coalescing demoClient cache demoAction
    "NewTotalBytesSent" "NewTotalBytesSent" 0 5 [("NewTotalBytesSent", 42)]
    (by rfl) (by rfl) (by decide)
  exact ⟨h.1, h.2.1⟩

/-- C6: a failed device call is never stored in the cache: the entry for
that Operation is unchanged, the failure propagates to the caller, and the
immediately following read of the same Operation issues a new underlying
device call (count 1 again) rather than replaying the failure from cache. -/
theorem C6_failure_not_cached (client : Client) (c0 : TTLCacheState)
    (a : Action) (key : String) (t : Nat) (err : PyError)
    (hmiss : (cacheLookup c0 (hashkey a) t).1 = none)
    (hdev : client.call_action_device a.service_name a.action_name
      = Except.error err) :
    (handle_read client c0 a key t).1 = Except.error err
    ∧ (handle_read client c0 a key t).2.2 = 1
    ∧ cacheFind (handle_read client c0 a key t).2.1 (hashkey a)
        = cacheFind c0 (hashkey a)
    ∧ (handle_read client (handle_read client c0 a key t).2.1 a key t).2.2 = 1
    ∧ (handle_read client (handle_read client c0 a key t).2.1 a key t).1
        = Except.error err := by
  rcases hcl : cacheLookup c0 (hashkey a) t with ⟨o, cmid⟩
  rw [hcl] at hmiss
  simp only at hmiss
  subst hmiss
  have hr : handle_read client c0 a key t = (Except.error err, cmid, 1) := by
    unfold handle_read call_action
    rw [hcl, hdev]
  have hmiss2 : (cacheLookup cmid (hashkey a) t).1 = none := by
    have h' := cacheLookup_miss_again c0 (hashkey a) t (by rw [hcl])
    rw [hcl] at h'
    exact h'
  rcases hcl2 : cacheLookup cmid (hashkey a) t with ⟨o2, c2⟩
  rw [hcl2] at hmiss2
  simp only at hmiss2
  subst hmiss2
  have hr2 : handle_read client cmid a key t = (Except.error err, c2, 1) := by
    unfold handle_read call_action
    rw [hcl2, hdev]
  have hfind : cacheFind cmid (hashkey a) = cacheFind c0 (hashkey a) := by
    have h' := cacheFind_cacheLookup_self c0 (hashkey a) t
    rw [hcl] at h'
    exact h'
  rw [hr]
  refine ⟨rfl, rfl, hfind, ?_, ?_⟩
  · show (handle_read client cmid a key t).2.2 = 1
    rw [hr2]
  · show (handle_read client cmid a key t).1 = Except.error err
    rw [hr2]

/-- C6 witness: the theorem applied to a failing device on the startup
cache. -/
theorem C6_witness :
    (handle_read failingClient cache demoAction "NewTotalBytesSent" 0).1
      = Except.error (PyError.deviceError "down")
    ∧ (handle_read failingClient cache demoAction "NewTotalBytesSent" 0).2.2 = 1
    ∧ cacheFind (handle_read failingClient cache demoAction
        "NewTotalBytesSent" 0).2.1 (hashkey demoAction)
      = cacheFind cache (hashkey demoAction) := by
  have h := C6_failure_not_cached failingClient cache demoAction
    "NewTotalBytesSent" 0 (PyError.deviceError "down") (by rfl) (by rfl)
  exact ⟨h.1, h.2.1, h.2.2.1⟩

/-- C7: the Read Coalescer's cache is created with TTL 10 and capacity 200;
a read after an entry's age exceeds the TTL performs exactly one new device
call and replaces the stored value; an expired entry is a miss regardless of
spare capacity; and a full cache of unexpired entries evicts exactly its
least-recently-used (head) entry when a fresh key is inserted. -/
theorem C7_cache_ttl_capacity_lru :
    cache.maxsize = 200 ∧ cache.ttl = 10
    ∧ (∀ (client : Client) (c0 : TTLCacheState) (a : Action) (en : CacheEntry)
         (output : List (String × Value)) (t1 : Nat),
         cacheFind c0 (hashkey a) = some en → en.expires < t1 →
         client.call_action_device a.service_name a.action_name
           = Except.ok output →
         call_action client c0 a t1
           = (Except.ok output,
              cacheSet (cacheLookup c0 (hashkey a) t1).2 (hashkey a) output t1,
              1)
         ∧ cacheFind (call_action client c0 a t1).2.1 (hashkey a)
             = some ⟨hashkey a, output, t1 + c0.ttl⟩)
    ∧ (∀ (c : TTLCacheState) (k : String × String) (en : CacheEntry)
         (now : Nat),
         cacheFind c k = some en → en.expires < now →
         c.entries.length < c.maxsize →
         (cacheLookup c k now).1 = none)
    ∧ (∀ (c : TTLCacheState) (k : String × String) (v : List (String × Value))
         (now : Nat),
         c.entries.length = c.maxsize →
         (∀ e ∈ c.entries, ¬ e.expires < now) →
         cacheFind c k = none →
         (cacheSet c k v now).entries
           = c.entries.tail ++ [⟨k, v, now + c.ttl⟩]) := by
  refine ⟨rfl, rfl, ?_, ?_, ?_⟩
  · intro client c0 a en output t1 hfind hexp hdev
    have hmiss : (cacheLookup c0 (hashkey a) t1).1 = none :=
      cacheLookup_expired c0 (hashkey a) t1 en hfind hexp
    rcases hcl : cacheLookup c0 (hashkey a) t1 with ⟨o, cmid⟩
    rw [hcl] at hmiss
    simp only at hmiss
    subst hmiss
    have hca : call_action client c0 a t1
        = (Except.ok output, cacheSet cmid (hashkey a) output t1, 1) := by
      unfold call_action
      rw [hcl, hdev]
    have httl : cmid.ttl = c0.ttl := by
      have h' := cacheLookup_ttl c0 (hashkey a) t1
      rw [hcl] at h'
      exact h'
    refine ⟨by rw [hca], ?_⟩
    rw [hca]
    show cacheFind (cacheSet cmid (hashkey a) output t1) (hashkey a) = _
    rw [cacheFind_cacheSet_self, httl]
  · intro c k en now hfind hexp hcap
    exact cacheLookup_expired c k now en hfind hexp
  · intro c k v now hlen hvalid hfind
    simp only [cacheSet, cacheExpire]
    have hfilter1 : c.entries.filter (fun e => !decide (e.expires < now))
        = c.entries := by
      rw [List.filter_eq_self]
      intro e he
      simpa using hvalid e he
    have hfilter2 : c.entries.filter (fun e => !decide (e.key = k))
        = c.entries := by
      rw [List.filter_eq_self]
      intro e he
      unfold cacheFind at hfind
      rw [List.find?_eq_none] at hfind
      simpa using hfind e he
    rw [hfilter1, hfilter2]
    have hcond : c.maxsize < c.entries.length + 1 := by omega
    rw [if_pos hcond]
    have hone : c.entries.length + 1 - c.maxsize = 1 := by omega
    rw [hone, List.drop_one]

/-- C7 witness: inserting a third key into the full two-entry cache evicts
exactly the least-recently-used entry. -/
theorem C7_witness :
    (cacheSet fullCache ("s3", "a3") [] 50).entries
      = fullCache.entries.tail ++ [⟨("s3", "a3"), [], 60⟩] :=
  C7_cache_ttl_capacity_lru.2.2.2.2 fullCache ("s3", "a3") [] 50 rfl
    (by decide) (by decide)

/-! Helper lemmas characterising the registrations of `collect_variables`. -/

theorem regs_of_collect_variables_keys {flags : Flags} {client : Client}
    {action : Action} {now : Nat} {output : List (String × Value)}
    {st st' : CVState}
    (h : collect_variables_keys flags client action now output st
      = Except.ok st')
    {r : Registration} (hr : r ∈ st'.regs) :
    r ∈ st.regs ∨ RegFromAction action r := by
  induction output generalizing st with
  | nil =>
    simp only [collect_variables_keys, Except.ok.injEq] at h
    subst h
    exact Or.inl hr
  | cons kv rest ih =>
    obtain ⟨key, v⟩ := kv
    simp only [collect_variables_keys] at h
    split at h
    · simp at h
    · rename_i sv hpd
      split at h
      · rename_i hexp
        split at h
        · split at h
          · simp at h
          · rcases ih h with hmem | hreg
            · simp only [registerKey] at hmem
              rcases List.mem_append.mp hmem with hmem | hmem
              · exact Or.inl hmem
              · have hr' := List.mem_singleton.mp hmem
                subst hr'
                exact Or.inr ⟨rfl, rfl, rfl, sv, hpd, hexp, rfl⟩
            · exact Or.inr hreg
        · rcases ih h with hmem | hreg
          · simp only [registerKey] at hmem
            rcases List.mem_append.mp hmem with hmem | hmem
            · exact Or.inl hmem
            · have hr' := List.mem_singleton.mp hmem
              subst hr'
              exact Or.inr ⟨rfl, rfl, rfl, sv, hpd, hexp, rfl⟩
          · exact Or.inr hreg
      · rcases ih h with hmem | hreg
        · exact Or.inl hmem
        · exact Or.inr hreg

theorem regs_of_collect_variables_actions {flags : Flags} {client : Client}
    {now : Nat} {l : List Action} {st st' : CVState}
    (h : collect_variables_actions flags client now l st = Except.ok st')
    {r : Registration} (hr : r ∈ st'.regs) :
    r ∈ st.regs ∨ ∃ a ∈ l,
      flags.service_skiplist.contains a.service_name = false
      ∧ flags.action_skiplist.contains a.action_name = false
      ∧ RegFromAction a r := by
  induction l generalizing st with
  | nil =>
    simp only [collect_variables_actions, Except.ok.injEq] at h
    subst h
    exact Or.inl hr
  | cons a rest ih =>
    simp only [collect_variables_actions] at h
    split at h
    · rcases ih h with hmem | ⟨a', ha', hres⟩
      · exact Or.inl hmem
      · exact Or.inr ⟨a', List.mem_cons.mpr (Or.inr ha'), hres⟩
    · rename_i hs
      split at h
      · rcases ih h with hmem | ⟨a', ha', hres⟩
        · exact Or.inl hmem
        · exact Or.inr ⟨a', List.mem_cons.mpr (Or.inr ha'), hres⟩
      · rename_i ha
        split at h
        · simp at h
        · rename_i output c2 n hca
          split at h
          · simp at h
          · rename_i st2 hkeys
            have hs' : flags.service_skiplist.contains a.service_name
                = false := by
              simpa using hs
            have ha' : flags.action_skiplist.contains a.action_name
                = false := by
              simpa using ha
            rcases ih h with hmem | ⟨a', hmem', hres⟩
            · rcases regs_of_collect_variables_keys hkeys hmem with hmem | hreg
              · exact Or.inl hmem
              · exact Or.inr ⟨a, List.mem_cons.mpr (Or.inl rfl), hs', ha', hreg⟩
            · exact Or.inr ⟨a', List.mem_cons.mpr (Or.inr hmem'), hres⟩

/-- Skiplisted actions are invisible: dropping them from the input list does
not change the result of `collect_variables_actions` at all. -/
theorem collect_variables_actions_filter (flags : Flags) (client : Client)
    (now : Nat) (l : List Action) (st : CVState) :
    collect_variables_actions flags client now
      (l.filter (fun a => !(flags.service_skiplist.contains a.service_name
        || flags.action_skiplist.contains a.action_name))) st
    = collect_variables_actions flags client now l st := by
  induction l generalizing st with
  | nil => rfl
  | cons a rest ih =>
    cases hs : flags.service_skiplist.contains a.service_name with
    | true =>
      have hs' : a.service_name ∈ flags.service_skiplist := by simpa using hs
      have hfil : (a :: rest).filter
          (fun a => !(flags.service_skiplist.contains a.service_name
            || flags.action_skiplist.contains a.action_name))
          = rest.filter
            (fun a => !(flags.service_skiplist.contains a.service_name
              || flags.action_skiplist.contains a.action_name)) := by
        rw [List.filter_cons]
        simp [hs']
      rw [hfil, ih]
      have hskip : collect_variables_actions flags client now (a :: rest) st
          = collect_variables_actions flags client now rest st := by
        simp [collect_variables_actions, hs']
      rw [hskip]
    | false =>
      cases ha : flags.action_skiplist.contains a.action_name with
      | true =>
        have hs' : a.service_name ∉ flags.service_skiplist := by
          simpa using hs
        have ha' : a.action_name ∈ flags.action_skiplist := by simpa using ha
        have hfil : (a :: rest).filter
            (fun a => !(flags.service_skiplist.contains a.service_name
              || flags.action_skiplist.contains a.action_name))
            = rest.filter
              (fun a => !(flags.service_skiplist.contains a.service_name
                || flags.action_skiplist.contains a.action_name)) := by
          rw [List.filter_cons]
          simp [ha']
        rw [hfil, ih]
        have hskip : collect_variables_actions flags client now (a :: rest) st
            = collect_variables_actions flags client now rest st := by
          simp [collect_variables_actions, hs', ha']
        rw [hskip]
      | false =>
        have hs' : a.service_name ∉ flags.service_skiplist := by
          simpa using hs
        have ha' : a.action_name ∉ flags.action_skiplist := by
          simpa using ha
        have hfil : (a :: rest).filter
            (fun a => !(flags.service_skiplist.contains a.service_name
              || flags.action_skiplist.contains a.action_name))
            = a :: rest.filter
              (fun a => !(flags.service_skiplist.contains a.service_name
                || flags.action_skiplist.contains a.action_name)) := by
          rw [List.filter_cons]
          simp [hs', ha']
        rw [hfil]
        rcases hca : call_action client st.c a now with ⟨e | output, c2, n⟩
        · have hstep : ∀ (l2 : List Action),
              collect_variables_actions flags client now (a :: l2) st
                = Except.error e := by
            intro l2
            simp only [collect_variables_actions, hca]
            rw [if_neg (by simpa using hs'), if_neg (by simpa using ha')]
          rw [hstep (rest.filter
              (fun a => !(flags.service_skiplist.contains a.service_name
                || flags.action_skiplist.contains a.action_name))), hstep rest]
        · have hstep : ∀ (l2 : List Action),
              collect_variables_actions flags client now (a :: l2) st
                = match collect_variables_keys flags client a now output
                    ⟨st.vars, st.regs, c2, st.calls + n⟩ with
                  | Except.error e => Except.error e
                  | Except.ok st2 =>
                    collect_variables_actions flags client now l2 st2 := by
            intro l2
            simp only [collect_variables_actions, hca]
            rw [if_neg (by simpa using hs'), if_neg (by simpa using ha')]
          rw [hstep (rest.filter
              (fun a => !(flags.service_skiplist.contains a.service_name
                || flags.action_skiplist.contains a.action_name))), hstep rest]
          cases hkeys : collect_variables_keys flags client a now output
              ⟨st.vars, st.regs, c2, st.calls + n⟩ with
          | error e => simp only [hkeys]
          | ok st2 =>
            simp only [hkeys]
            exact ih st2

/-- C5: an Operation whose service name is in the service skip list or whose
action name is in the action skip list (exact, case-sensitive string match)
never produces a registration, and removing all such Operations from the
input leaves `collect_variables` entirely unchanged. -/
theorem C5_skiplists_exclude (flags : Flags) (client : Client)
    (actions : List Action) (c : TTLCacheState) (now : Nat) :
    (∀ st, collect_variables flags client actions c now = Except.ok st →
      ∀ r ∈ st.regs,
        flags.service_skiplist.contains r.action.service_name = false
        ∧ flags.action_skiplist.contains r.action.action_name = false)
    ∧ collect_variables flags client
        (actions.filter (fun a =>
          !(flags.service_skiplist.contains a.service_name
            || flags.action_skiplist.contains a.action_name))) c now
      = collect_variables flags client actions c now := by
  constructor
  · intro st h r hr
    rcases regs_of_collect_variables_actions h hr with hmem | ⟨a, _, hs, ha, hreg⟩
    · simp at hmem
    · rw [hreg.1]
      exact ⟨hs, ha⟩
  · exact collect_variables_actions_filter flags client now actions ⟨[], [], c, 0⟩

/-- C5 witness: the theorem applied to the default flags and a concrete
skiplisted action alongside the demonstration action. -/
theorem C5_witness :
    (∀ st, collect_variables defaultFlags demoClient [demoAction] cache 0
        = Except.ok st →
      ∀ r ∈ st.regs,
        defaultFlags.service_skiplist.contains r.action.service_name = false
        ∧ defaultFlags.action_skiplist.contains r.action.action_name = false) :=
  (C5_skiplists_exclude defaultFlags demoClient [demoAction] cache 0).1

/-- C8: `handle_read` (readField) returns exactly the value stored at `key`
in the full result mapping of the cached call, and every registration
produced by `collect_variables` is bound by value to its own
(Operation, fieldKey) pair: its label values are its own action's names, its
key resolves in its own action's arguments to an exportable state variable
whose name derives its metric name, and its accessor reads exactly its own
pair through `handle_read` — never the pair of the last loop iteration. -/
theorem C8_accessor_binding :
    (∀ (client : Client) (c : TTLCacheState) (a : Action) (key : String)
       (now : Nat) (output : List (String × Value)) (c' : TTLCacheState)
       (n : Nat),
       call_action client c a now = (Except.ok output, c', n) →
       handle_read client c a key now
         = ((match pyDictGet output key with
             | some v => Except.ok v
             | none => Except.error (PyError.keyError key)), c', n))
    ∧ (∀ (flags : Flags) (client : Client) (actions : List Action)
         (c : TTLCacheState) (now : Nat) (st : CVState),
         collect_variables flags client actions c now = Except.ok st →
         ∀ r ∈ st.regs, RegFromAction r.action r
           ∧ ∀ c2 now2, Registration.accessor client r c2 now2
               = handle_read client c2 r.action r.key now2) := by
  constructor
  · intro client c a key now output c' n hca
    unfold handle_read
    rw [hca]
    cases hpd : pyDictGet output key with
    | none => simp [hpd]
    | some v => simp [hpd]
  · intro flags client actions c now st h r hr
    rcases regs_of_collect_variables_actions h hr with hmem | ⟨a, _, _, _, hreg⟩
    · simp at hmem
    · exact ⟨by rw [hreg.1]; exact hreg, fun c2 now2 => rfl⟩

/-- C8 witness: on the demonstration device, the registered field read
returns exactly the value at its key of the device's result mapping. -/
theorem C8_witness :
    (handle_read demoClient cache demoAction "NewTotalBytesSent" 0).1
      = Except.ok 42 := by
  have h := C8_accessor_binding.1 demoClient cache demoAction
    "NewTotalBytesSent" 0 [("NewTotalBytesSent", 42)]
    (call_action demoClient cache demoAction 0).2.1
    (call_action demoClient cache demoAction 0).2.2 (by rfl)
  rw [h]
  rfl

/-- C9 counterexample: metric registration does perform device calls — on
the demonstration device, `collect_variables` over the single discovered
eligible Operation issues one underlying device call during startup
registration (it enumerates the Operation's output keys by calling it), so
the call count after registration is 1, not 0. -/
theorem C9_counterexample :
    ∃ st, collect_variables defaultFlags demoClient [demoAction] cache 0
        = Except.ok st ∧ st.calls = 1 ∧ st.calls ≠ 0 :=
  ⟨_, rfl, rfl, by decide⟩

/-! Helper lemmas for the amended C9. -/

/-- One cached call performs at most one underlying device call. -/
theorem call_action_calls_le_one (client : Client) (c : TTLCacheState)
    (a : Action) (now : Nat) : (call_action client c a now).2.2 ≤ 1 := by
  unfold call_action
  split
  · exact Nat.zero_le 1
  · split
    · exact Nat.le_refl 1
    · exact Nat.le_refl 1

/-- With verbose logging off, the per-key registration loop touches neither
the cache nor the device-call count: registration itself performs no device
interaction. -/
theorem collect_variables_keys_frame {flags : Flags} {client : Client}
    {action : Action} {now : Nat} {output : List (String × Value)}
    {st st' : CVState} (hv : flags.verbose = false)
    (h : collect_variables_keys flags client action now output st
      = Except.ok st') :
    st'.c = st.c ∧ st'.calls = st.calls := by
  induction output generalizing st with
  | nil =>
    simp only [collect_variables_keys, Except.ok.injEq] at h
    subst h
    exact ⟨rfl, rfl⟩
  | cons kv rest ih =>
    obtain ⟨key, v⟩ := kv
    simp only [collect_variables_keys] at h
    split at h
    · simp at h
    · split at h
      · rw [hv] at h
        simp only [Bool.false_eq_true, if_false] at h
        have := ih h
        simpa [registerKey] using this
      · exact ih h

/-- With verbose logging off, `collect_variables_actions` issues at most one
underlying device call per processed (non-skiplisted) action. -/
theorem collect_variables_actions_calls {flags : Flags} {client : Client}
    {now : Nat} {l : List Action} {st st' : CVState}
    (hv : flags.verbose = false)
    (h : collect_variables_actions flags client now l st = Except.ok st') :
    st'.calls ≤ st.calls + (l.filter (fun a =>
      !(flags.service_skiplist.contains a.service_name
        || flags.action_skiplist.contains a.action_name))).length := by
  induction l generalizing st with
  | nil =>
    simp only [collect_variables_actions, Except.ok.injEq] at h
    subst h
    exact Nat.le_add_right st.calls 0
  | cons a rest ih =>
    simp only [collect_variables_actions] at h
    split at h
    · rename_i hs
      have hs' : a.service_name ∈ flags.service_skiplist := by simpa using hs
      have hfil : (a :: rest).filter
          (fun a => !(flags.service_skiplist.contains a.service_name
            || flags.action_skiplist.contains a.action_name))
          = rest.filter
            (fun a => !(flags.service_skiplist.contains a.service_name
              || flags.action_skiplist.contains a.action_name)) := by
        rw [List.filter_cons]
        simp [hs']
      rw [hfil]
      exact ih h
    · rename_i hs
      split at h
      · rename_i ha
        have hs' : a.service_name ∉ flags.service_skiplist := by
          simpa using hs
        have ha' : a.action_name ∈ flags.action_skiplist := by simpa using ha
        have hfil : (a :: rest).filter
            (fun a => !(flags.service_skiplist.contains a.service_name
              || flags.action_skiplist.contains a.action_name))
            = rest.filter
              (fun a => !(flags.service_skiplist.contains a.service_name
                || flags.action_skiplist.contains a.action_name)) := by
          rw [List.filter_cons]
          simp [ha']
        rw [hfil]
        exact ih h
      · rename_i ha
        have hs' : a.service_name ∉ flags.service_skiplist := by
          simpa using hs
        have ha' : a.action_name ∉ flags.action_skiplist := by
          simpa using ha
        have hfil : (a :: rest).filter
            (fun a => !(flags.service_skiplist.contains a.service_name
              || flags.action_skiplist.contains a.action_name))
            = a :: rest.filter
              (fun a => !(flags.service_skiplist.contains a.service_name
                || flags.action_skiplist.contains a.action_name)) := by
          rw [List.filter_cons]
          simp [hs', ha']
        rw [hfil]
        split at h
        · simp at h
        · rename_i output c2 n hca
          split at h
          · simp at h
          · rename_i st2 hkeys
            have hn : n ≤ 1 := by
              have hle := call_action_calls_le_one client st.c a now
              rw [hca] at hle
              exact hle
            have hframe := collect_variables_keys_frame hv hkeys
            have hrec := ih h
            simp only [List.length_cons]
            have hst2 : st2.calls = st.calls + n := hframe.2
            omega

/-- C9 (amended): eligibility filtering is pure, total, and performs no
device calls — `collect_actions` depends only on the declared schema, never
on the device-call interface; metric registration, however, DOES perform
device calls (`collect_variables` calls each surviving Operation once to
enumerate its output keys, hence at most one underlying call per
non-skiplisted Operation when verbose is off) and can fail; the per-variable
registration step itself performs no device interaction (the cache and call
count are untouched by the key loop when verbose is off), a registered
metric's value being computed only at scrape time via its accessor. -/
theorem C9_registration_effects :
    (∀ c1 c2 : Client, c1.services = c2.services →
      collect_actions c1 = collect_actions c2)
    ∧ (∀ (flags : Flags) (client : Client) (action : Action) (now : Nat)
         (output : List (String × Value)) (st st' : CVState),
         flags.verbose = false →
         collect_variables_keys flags client action now output st
           = Except.ok st' →
         st'.c = st.c ∧ st'.calls = st.calls)
    ∧ (∀ (flags : Flags) (client : Client) (actions : List Action)
         (c : TTLCacheState) (now : Nat) (st : CVState),
         flags.verbose = false →
         collect_variables flags client actions c now = Except.ok st →
         st.calls ≤ (actions.filter (fun a =>
           !(flags.service_skiplist.contains a.service_name
             || flags.action_skiplist.contains a.action_name))).length) := by
  refine ⟨?_, ?_, ?_⟩
  · intro c1 c2 h
    unfold collect_actions
    rw [h]
  · intro flags client action now output st st' hv h
    exact collect_variables_keys_frame hv h
  · intro flags client actions c now st hv h
    have := collect_variables_actions_calls hv h
    simpa using this

/-- C9 witness: the amended theorem applied to the demonstration run — the
one surviving Operation accounts for the single startup device call. -/
theorem C9_witness :
    ∃ st, collect_variables defaultFlags demoClient [demoAction] cache 0
        = Except.ok st
      ∧ st.calls ≤ ([demoAction].filter (fun a =>
          !(defaultFlags.service_skiplist.contains a.service_name
            || defaultFlags.action_skiplist.contains a.action_name))).length := by
  refine ⟨_, rfl, ?_⟩
  exact C9_registration_effects.2.2 defaultFlags demoClient [demoAction] cache 0
    _ (by rfl) (by rfl)

/-- C10: the field-read path is partial on mapping keys — `handle_read` of a
key absent from the device's result mapping yields an uncaught `KeyError`
(not a default and not an `Option`), and the registration loop raises an
uncaught `KeyError` as soon as the device's result mapping contains an
output name not declared among the Operation's arguments. -/
theorem C10_partial_lookups :
    (∀ (client : Client) (c : TTLCacheState) (a : Action) (key : String)
       (now : Nat) (output : List (String × Value)) (c' : TTLCacheState)
       (n : Nat),
       call_action client c a now = (Except.ok output, c', n) →
       pyDictGet output key = none →
       handle_read client c a key now
         = (Except.error (PyError.keyError key), c', n))
    ∧ (∀ (flags : Flags) (client : Client) (a : Action) (now : Nat)
         (key : String) (v : Value) (rest : List (String × Value))
         (st : CVState),
         pyDictGet a.arguments key = none →
         collect_variables_keys flags client a now ((key, v) :: rest) st
           = Except.error (PyError.keyError key)) := by
  constructor
  · intro client c a key now output c' n hca hpd
    unfold handle_read
    rw [hca]
    simp [hpd]
  · intro flags client a now key v rest st hpd
    simp only [collect_variables_keys]
    rw [hpd]

/-- C10 witness: the theorem applied to a device reporting an undeclared
output name. -/
theorem C10_witness :
    handle_read badClient cache demoAction "Nope" 0
      = (Except.error (PyError.keyError "Nope"),
         cacheSet cache (hashkey demoAction) [("Mystery", 7)] 0, 1)
    ∧ collect_variables_keys defaultFlags badClient demoAction 0
        [("Mystery", 7)] ⟨[], [], cache, 1⟩
      = Except.error (PyError.keyError "Mystery") := by
  constructor
  · exact C10_partial_lookups.1 badClient cache demoAction "Nope" 0
      [("Mystery", 7)] (cacheSet cache (hashkey demoAction) [("Mystery", 7)] 0)
      1 (by rfl) (by rfl)
  · exact C10_partial_lookups.2 defaultFlags badClient demoAction 0 "Mystery"
      7 [] ⟨[], [], cache, 1⟩ (by rfl)

end FritzboxExporter
